import Mathlib

/-!
Verification of the schema deriver in `sqlalchemy_to_pydantic/converter.py`.

The repository's only non-trivial logic is the function
`sqlalchemy_to_pydantic(db_model, *, config, exclude)`, which walks the
columns of the SQLAlchemy table attached to `db_model`, resolves each
column's Python type (through a one-level `impl` indirection when the column
type is a type decorator), and assembles a Pydantic field specification per
non-excluded column, finally calling `create_model` with the model's name,
the config and the assembled fields.

The embedding below mirrors that code statement by statement: attribute
presence (`hasattr`) becomes `Option`, the Python `assert` becomes the
`typeResolution` error of an `Except`, the `dict` of fields becomes an
association list with Python-dict insertion semantics, and `create_model`
becomes the constructor of `SchemaType`.
-/

/-- A native Python semantic type, as exposed by a column type's
`python_type` accessor (`int`, `str`, `bool`, `datetime.datetime`, ...). -/
inductive PyType where
  | int
  | str
  | bool
  | datetime
deriving DecidableEq, Repr

/-- The `impl` object of a type-decorating column type: what matters to the
converter is only whether it has a `python_type` accessor and, if so, which
native type that accessor yields. -/
structure TypeImpl where
  python_type : Option PyType
deriving DecidableEq, Repr

/-- A column's declared type object.  `impl = some _` models
`hasattr(column.type, "impl")`; `python_type = some _` models
`hasattr(column.type, "python_type")` on the column type itself. -/
structure ColType where
  impl : Option TypeImpl
  python_type : Option PyType
deriving DecidableEq, Repr

/-- A column descriptor: name, declared type, nullability flag. -/
structure Column where
  name : String
  type : ColType
  nullable : Bool
deriving DecidableEq, Repr

/-- A table object: an ordered collection of column descriptors. -/
structure Table where
  columns : List Column
deriving DecidableEq, Repr

/-- A SQLAlchemy model class as the converter consumes it: its `__name__`,
its `__tablename__`, and the `metadata.tables` mapping it is registered in. -/
structure DBModel where
  py_name : String
  tablename : String
  metadata_tables : List (String × Table)
deriving DecidableEq, Repr

/-- The type part of a produced field specification: either the resolved
type itself or `Optional[...]` of it. -/
inductive FieldType where
  | plain (t : PyType)
  | optional (t : PyType)
deriving DecidableEq, Repr

/-- The default part of a field specification: `...` (required, no default)
or the default value `None`. -/
inductive FieldDefault where
  | required
  | noneDefault
deriving DecidableEq, Repr

/-- A field specification, the pair `(type, default)` the converter stores
in its `fields` dict. -/
structure FieldSpec where
  type : FieldType
  default : FieldDefault
deriving DecidableEq, Repr

/-- The Pydantic model type produced by `create_model(name, __config__ =
config, **fields)`: a name, the forwarded config (opaque to the converter,
hence a type parameter), and the ordered field mapping. -/
structure SchemaType (Cfg : Type) where
  name : String
  config : Cfg
  fields : List (String × FieldSpec)
deriving DecidableEq, Repr

/-- The ways the converter's own body can abort: the `assert python_type`
failure (an `AssertionError` whose message names the column), and the
`KeyError` from `metadata.tables[tablename]` when the table is missing. -/
inductive DeriveError where
  | typeResolution (columnName : String)
  | tableKeyError (tablename : String)
deriving DecidableEq, Repr

/-- Equality on `Except` outcomes is decidable when it is on both sides. -/
instance exceptDecEq {ε α : Type} [DecidableEq ε] [DecidableEq α] :
    DecidableEq (Except ε α) := fun x y =>
  match x, y with
  | Except.ok a, Except.ok b =>
    if h : a = b then isTrue (by rw [h])
    else isFalse (fun hc => h (Except.ok.inj hc))
  | Except.error a, Except.error b =>
    if h : a = b then isTrue (by rw [h])
    else isFalse (fun hc => h (Except.error.inj hc))
  | Except.ok _, Except.error _ => isFalse (fun hc => Except.noConfusion hc)
  | Except.error _, Except.ok _ => isFalse (fun hc => Except.noConfusion hc)

/-- Type resolution for one column, lines 16-21 of `converter.py`:
`if hasattr(column.type, "impl"): if hasattr(column.type.impl,
"python_type"): python_type = column.type.impl.python_type
elif hasattr(column.type, "python_type"): python_type = column.type.python_type`.
Note the `elif`: when `impl` is present the direct accessor is never
consulted. -/
def resolve_python_type (t : ColType) : Option PyType :=
  match t.impl with
  | some i => i.python_type
  | none => t.python_type

/-- The field specification built for a column once its type resolved,
lines 24-27: `(python_type, ...)` when not nullable, otherwise
`(Optional[python_type], None)`. -/
def columnField (c : Column) (pt : PyType) : FieldSpec :=
  if !c.nullable then
    { type := FieldType.plain pt, default := FieldDefault.required }
  else
    { type := FieldType.optional pt, default := FieldDefault.noneDefault }

/-- Python-dict assignment `fields[name] = spec` on an association list:
overwrite in place when the key exists, else append. -/
def dictInsert (fields : List (String × FieldSpec)) (name : String)
    (spec : FieldSpec) : List (String × FieldSpec) :=
  if fields.any (fun p => p.1 == name) then
    fields.map (fun p => if p.1 == name then (name, spec) else p)
  else
    fields ++ [(name, spec)]

/-- The converter's `for column in table.columns` loop, carrying the
`fields` dict: skip excluded names, resolve the type, fail on the assert
when resolution yields nothing, otherwise store the specification. -/
def processColumns (exclude : List String) :
    List Column → List (String × FieldSpec) →
    Except DeriveError (List (String × FieldSpec))
  | [], fields => Except.ok fields
  | c :: cols, fields =>
    if exclude.contains c.name then
      processColumns exclude cols fields
    else
      match resolve_python_type c.type with
      | some pt => processColumns exclude cols (dictInsert fields c.name (columnField c pt))
      | none => Except.error (DeriveError.typeResolution c.name)

/-- Line 10: `table = db_model.metadata.tables[db_model.__tablename__]`. -/
def lookupTable (m : DBModel) : Option Table :=
  (m.metadata_tables.find? (fun p => p.1 == m.tablename)).map Prod.snd

/-- The whole converter `sqlalchemy_to_pydantic(db_model, *, config,
exclude)`: look the table up (a missing table raises `KeyError`), run the
column loop, then `create_model(db_model.__name__, __config__ = config,
**fields)`. -/
def sqlalchemy_to_pydantic {Cfg : Type} (db_model : DBModel) (config : Cfg)
    (exclude : List String) : Except DeriveError (SchemaType Cfg) :=
  match lookupTable db_model with
  | none => Except.error (DeriveError.tableKeyError db_model.tablename)
  | some table =>
    match processColumns exclude table.columns [] with
    | Except.error e => Except.error e
    | Except.ok fields =>
      Except.ok { name := db_model.py_name, config := config, fields := fields }

/-- One call of the converter against an explicit program state,
modelling the Python call discipline: the state carries the model object,
the module-level mutable list that is the default of `exclude`, and the
types created so far; passing no `exclude` argument uses the shared
default object.  The body performs no assignment to any object of the
state; `create_model` allocates a fresh type. -/
structure CallState (Cfg : Type) where
  db_model : DBModel
  default_exclude : List String
  created : List (SchemaType Cfg)
deriving DecidableEq, Repr

/-- Calling `sqlalchemy_to_pydantic` in state `st` with config `cfg` and
optional explicit `exclude` argument; returns the state after the call and
the call's outcome. -/
def sqlalchemy_to_pydantic_call {Cfg : Type} (st : CallState Cfg) (cfg : Cfg)
    (excl : Option (List String)) :
    CallState Cfg × Except DeriveError (SchemaType Cfg) :=
  let exclude := excl.getD st.default_exclude
  match sqlalchemy_to_pydantic st.db_model cfg exclude with
  | Except.ok s => ({ st with created := st.created ++ [s] }, Except.ok s)
  | Except.error e => (st, Except.error e)

/-- The fields the loop produces on a success run, in column order:
one entry per non-excluded column that resolves. -/
def fieldsOf (exclude : List String) : List Column → List (String × FieldSpec)
  | [] => []
  | c :: cols =>
    if exclude.contains c.name then fieldsOf exclude cols
    else
      match resolve_python_type c.type with
      | some pt => (c.name, columnField c pt) :: fieldsOf exclude cols
      | none => fieldsOf exclude cols

/-- The name of the first non-excluded column whose type resolution fails,
if any: the column the `assert` reports. -/
def firstFailing (exclude : List String) : List Column → Option String
  | [] => none
  | c :: cols =>
    if exclude.contains c.name then firstFailing exclude cols
    else
      match resolve_python_type c.type with
      | some _ => firstFailing exclude cols
      | none => some c.name

/-- The `required` list of the structural (JSON-Schema-like) description of
a field mapping: the names of the fields that carry no default. -/
def requiredNames (fields : List (String × FieldSpec)) : List String :=
  (fields.filter (fun p => p.2.default == FieldDefault.required)).map Prod.fst

/-! ### Concrete inputs, mirroring the test fixtures -/

/-- The type object of `Integer`: no `impl`, `python_type` is `int`. -/
def intColType : ColType := { impl := none, python_type := some PyType.int }

/-- The type object of `String`: no `impl`, `python_type` is `str`. -/
def strColType : ColType := { impl := none, python_type := some PyType.str }

/-- The type object of `DateTime`: no `impl`, `python_type` is `datetime`. -/
def dateTimeColType : ColType :=
  { impl := none, python_type := some PyType.datetime }

/-- The type object of `UtcDateTime`, a type decorator: it carries an
`impl` (a `DateTime`) whose `python_type` is `datetime`. -/
def utcDateTimeColType : ColType :=
  { impl := some { python_type := some PyType.datetime },
    python_type := some PyType.datetime }

/-- The `users` table of the test suite. -/
def usersTable : Table :=
  { columns :=
      [ { name := "id", type := intColType, nullable := false },
        { name := "name", type := strColType, nullable := true },
        { name := "fullname", type := strColType, nullable := true },
        { name := "nickname", type := strColType, nullable := true },
        { name := "created", type := dateTimeColType, nullable := true },
        { name := "updated", type := utcDateTimeColType, nullable := true } ] }

/-- The `User` model of the test suite. -/
def userModel : DBModel :=
  { py_name := "User", tablename := "users",
    metadata_tables := [("users", usersTable)] }

/-- The field mapping the converter derives for `User` with nothing
excluded. -/
def userFields : List (String × FieldSpec) :=
  [ ("id", { type := FieldType.plain PyType.int, default := FieldDefault.required }),
    ("name", { type := FieldType.optional PyType.str, default := FieldDefault.noneDefault }),
    ("fullname", { type := FieldType.optional PyType.str, default := FieldDefault.noneDefault }),
    ("nickname", { type := FieldType.optional PyType.str, default := FieldDefault.noneDefault }),
    ("created", { type := FieldType.optional PyType.datetime, default := FieldDefault.noneDefault }),
    ("updated", { type := FieldType.optional PyType.datetime, default := FieldDefault.noneDefault }) ]

/-- The schema type derived for `User` (with a trivial config). -/
def userSchema : SchemaType Unit :=
  { name := "User", config := (), fields := userFields }

/-- A column whose type object has an `impl` without a `python_type`
accessor while the column type itself does expose `python_type` directly:
the `elif` in the converter then leaves `python_type = None` even though
the direct accessor would have yielded `int`. -/
def implOnlyColumn : Column :=
  { name := "x",
    type := { impl := some { python_type := none },
              python_type := some PyType.int },
    nullable := false }

/-- A one-column table holding `implOnlyColumn`. -/
def implOnlyTable : Table := { columns := [implOnlyColumn] }

/-- A model mapped to `implOnlyTable`. -/
def implOnlyModel : DBModel :=
  { py_name := "X", tablename := "t", metadata_tables := [("t", implOnlyTable)] }

/-- A second derived `User` schema, with a `Bool` config, for comparing
derivations under different configs. -/
def userSchemaB : SchemaType Bool :=
  { name := "User", config := true, fields := userFields }

/-! ### The validation collaborator, modelled from the spec

The Pydantic engine itself is not part of this repository; the spec
describes the contract the derived schema type satisfies through it
(validate an object with attribute access into an instance, serialize an
instance back to a plain mapping, nullable fields accept null and default
to null).  The definitions below model exactly that contract. -/

/-- Modelled from the spec: a runtime field value as the validation
collaborator sees it (the engine, absent from this repository, handles
`int`, `str`, `bool`, `datetime` and `None` values here). -/
inductive PyValue where
  | vint (n : Int)
  | vstr (s : String)
  | vbool (b : Bool)
  | vdatetime (ticks : Nat)
  | vnone
deriving DecidableEq, Repr

/-- Modelled from the spec: a value inhabits a native semantic type. -/
def matchesType : PyType → PyValue → Bool
  | PyType.int, PyValue.vint _ => true
  | PyType.str, PyValue.vstr _ => true
  | PyType.bool, PyValue.vbool _ => true
  | PyType.datetime, PyValue.vdatetime _ => true
  | _, _ => false

/-- Modelled from the spec: a value is acceptable for a field's type; an
optional-wrapped type additionally accepts the null value. -/
def fieldAccepts : FieldType → PyValue → Bool
  | FieldType.plain t, v => matchesType t v
  | FieldType.optional t, v => (v == PyValue.vnone) || matchesType t v

/-- Modelled from the spec: validate an attribute mapping against a field
list (the missing validation engine of the output collaborator): each field
reads the attribute of the same name, which must inhabit the field's type;
a missing attribute is the null default for a defaulted field and a
validation failure for a required one. -/
def validateFields : List (String × FieldSpec) → List (String × PyValue) →
    Option (List (String × PyValue))
  | [], _ => some []
  | (n, fs) :: rest, attrs =>
    match attrs.lookup n with
    | some v =>
      if fieldAccepts fs.type v then
        (validateFields rest attrs).map (fun inst => (n, v) :: inst)
      else none
    | none =>
      match fs.default with
      | FieldDefault.noneDefault =>
        (validateFields rest attrs).map (fun inst => (n, PyValue.vnone) :: inst)
      | FieldDefault.required => none

/-- Modelled from the spec: `model_validate` of a derived schema type —
validate/coerce an object with attribute access into an instance, an
instance being its mapping of field names to values. -/
def model_validate {Cfg : Type} (s : SchemaType Cfg)
    (attrs : List (String × PyValue)) : Option (List (String × PyValue)) :=
  validateFields s.fields attrs

/-- Modelled from the spec: `model_dump` — serialize an instance back to a
plain mapping of field names to values. -/
def model_dump (inst : List (String × PyValue)) : List (String × PyValue) :=
  inst

/-- The attribute mapping of the `ed` row of the test suite. -/
def edAttrs : List (String × PyValue) :=
  [ ("id", PyValue.vint 1), ("name", PyValue.vstr "ed"),
    ("fullname", PyValue.vstr "Ed Jones"),
    ("nickname", PyValue.vstr "edsnickname"),
    ("created", PyValue.vdatetime 100), ("updated", PyValue.vdatetime 200) ]

/-! ### Helper lemmas about the column loop -/

theorem dictInsert_fresh (fields : List (String × FieldSpec)) (n : String)
    (spec : FieldSpec) (h : fields.any (fun p => p.1 == n) = false) :
    dictInsert fields n spec = fields ++ [(n, spec)] := by
  simp [dictInsert, h]

theorem processColumns_ok_shape (exclude : List String) (cols : List Column) :
    ∀ acc : List (String × FieldSpec),
    (cols.map Column.name).Nodup →
    (∀ c ∈ cols, acc.any (fun p => p.1 == c.name) = false) →
    (∀ c ∈ cols, exclude.contains c.name = false →
      (resolve_python_type c.type).isSome = true) →
    processColumns exclude cols acc = Except.ok (acc ++ fieldsOf exclude cols) := by
  induction cols with
  | nil =>
    intro acc _ _ _
    simp [processColumns, fieldsOf]
  | cons c cols ih =>
    intro acc hnd hacc hres
    simp only [List.map_cons, List.nodup_cons] at hnd
    by_cases hex : exclude.contains c.name = true
    · simp only [processColumns, fieldsOf, hex, if_true]
      exact ih acc hnd.2 (fun d hd => hacc d (List.mem_cons_of_mem _ hd))
        (fun d hd h => hres d (List.mem_cons_of_mem _ hd) h)
    · have hex' : exclude.contains c.name = false := by
        simpa using hex
      have hr : (resolve_python_type c.type).isSome = true :=
        hres c (List.mem_cons_self _ _) hex'
      obtain ⟨pt, hpt⟩ := Option.isSome_iff_exists.mp hr
      simp only [processColumns, fieldsOf, hex', hpt, Bool.false_eq_true, if_false]
      rw [dictInsert_fresh acc c.name _ (hacc c (List.mem_cons_self _ _))]
      have step := ih (acc ++ [(c.name, columnField c pt)]) hnd.2
        (fun d hd => by
          have hdn : c.name ≠ d.name := by
            intro hcontra
            exact hnd.1 (hcontra ▸ List.mem_map_of_mem Column.name hd)
          simp [List.any_append, hacc d (List.mem_cons_of_mem _ hd), hdn])
        (fun d hd h => hres d (List.mem_cons_of_mem _ hd) h)
      rw [step, List.append_assoc]
      simp

theorem processColumns_err (exclude : List String) (cols : List Column) :
    ∀ (acc : List (String × FieldSpec)) (n : String),
    firstFailing exclude cols = some n →
    processColumns exclude cols acc = Except.error (DeriveError.typeResolution n) := by
  induction cols with
  | nil =>
    intro acc n h
    simp [firstFailing] at h
  | cons c cols ih =>
    intro acc n h
    by_cases hex : exclude.contains c.name = true
    · simp only [firstFailing, hex, if_true] at h
      simp only [processColumns, hex, if_true]
      exact ih acc n h
    · have hex' : exclude.contains c.name = false := by simpa using hex
      cases hpt : resolve_python_type c.type with
      | some pt =>
        simp only [firstFailing, hex', hpt, Bool.false_eq_true, if_false] at h
        simp only [processColumns, hex', hpt, Bool.false_eq_true, if_false]
        exact ih _ n h
      | none =>
        simp only [firstFailing, hex', hpt, Bool.false_eq_true, if_false] at h
        simp only [processColumns, hex', hpt, Bool.false_eq_true, if_false]
        rw [Option.some.inj h]

theorem firstFailing_none_of (exclude : List String) (cols : List Column)
    (h : ∀ c ∈ cols, exclude.contains c.name = false →
      (resolve_python_type c.type).isSome = true) :
    firstFailing exclude cols = none := by
  induction cols with
  | nil => simp [firstFailing]
  | cons c cols ih =>
    by_cases hex : exclude.contains c.name = true
    · simp only [firstFailing, hex, if_true]
      exact ih (fun d hd hd2 => h d (List.mem_cons_of_mem _ hd) hd2)
    · have hex' : exclude.contains c.name = false := by simpa using hex
      have hr := h c (List.mem_cons_self _ _) hex'
      obtain ⟨pt, hpt⟩ := Option.isSome_iff_exists.mp hr
      simp only [firstFailing, hex', hpt, Bool.false_eq_true, if_false]
      exact ih (fun d hd hd2 => h d (List.mem_cons_of_mem _ hd) hd2)

theorem of_firstFailing_none (exclude : List String) (cols : List Column)
    (h : firstFailing exclude cols = none) :
    ∀ c ∈ cols, exclude.contains c.name = false →
      (resolve_python_type c.type).isSome = true := by
  induction cols with
  | nil => intro c hc; cases hc
  | cons c cols ih =>
    intro d hd hdex
    by_cases hex : exclude.contains c.name = true
    · simp only [firstFailing, hex, if_true] at h
      rcases List.mem_cons.mp hd with rfl | hd2
      · rw [hex] at hdex; cases hdex
      · exact ih h d hd2 hdex
    · have hex' : exclude.contains c.name = false := by simpa using hex
      cases hpt : resolve_python_type c.type with
      | some pt =>
        simp only [firstFailing, hex', hpt, Bool.false_eq_true, if_false] at h
        rcases List.mem_cons.mp hd with rfl | hd2
        · simp [hpt]
        · exact ih h d hd2 hdex
      | none =>
        simp only [firstFailing, hex', hpt, Bool.false_eq_true, if_false] at h
        cases h

theorem processColumns_ok_of_none (exclude : List String) (cols : List Column)
    (h : firstFailing exclude cols = none) :
    ∀ acc : List (String × FieldSpec),
    ∃ fs, processColumns exclude cols acc = Except.ok fs := by
  induction cols with
  | nil => intro acc; exact ⟨acc, rfl⟩
  | cons c cols ih =>
    intro acc
    by_cases hex : exclude.contains c.name = true
    · simp only [firstFailing, hex, if_true] at h
      simp only [processColumns, hex, if_true]
      exact ih h acc
    · have hex' : exclude.contains c.name = false := by simpa using hex
      cases hpt : resolve_python_type c.type with
      | some pt =>
        simp only [firstFailing, hex', hpt, Bool.false_eq_true, if_false] at h
        simp only [processColumns, hex', hpt, Bool.false_eq_true, if_false]
        exact ih h _
      | none =>
        simp only [firstFailing, hex', hpt, Bool.false_eq_true, if_false] at h
        cases h

theorem processColumns_error_name (exclude : List String) (cols : List Column)
    (acc : List (String × FieldSpec)) (n : String)
    (h : processColumns exclude cols acc = Except.error (DeriveError.typeResolution n)) :
    firstFailing exclude cols = some n := by
  cases hf : firstFailing exclude cols with
  | none =>
    obtain ⟨fs, hfs⟩ := processColumns_ok_of_none exclude cols hf acc
    rw [hfs] at h
    cases h
  | some m =>
    have herr := processColumns_err exclude cols acc m hf
    rw [herr] at h
    have : DeriveError.typeResolution m = DeriveError.typeResolution n :=
      Except.error.inj h
    rw [DeriveError.typeResolution.inj this]

theorem firstFailing_some_spec (exclude : List String) (cols : List Column)
    (n : String) (h : firstFailing exclude cols = some n) :
    ∃ c ∈ cols, c.name = n ∧ exclude.contains c.name = false ∧
      resolve_python_type c.type = none := by
  induction cols with
  | nil => simp [firstFailing] at h
  | cons c cols ih =>
    by_cases hex : exclude.contains c.name = true
    · simp only [firstFailing, hex, if_true] at h
      obtain ⟨d, hd, hrest⟩ := ih h
      exact ⟨d, List.mem_cons_of_mem _ hd, hrest⟩
    · have hex' : exclude.contains c.name = false := by simpa using hex
      cases hpt : resolve_python_type c.type with
      | some pt =>
        simp only [firstFailing, hex', hpt, Bool.false_eq_true, if_false] at h
        obtain ⟨d, hd, hrest⟩ := ih h
        exact ⟨d, List.mem_cons_of_mem _ hd, hrest⟩
      | none =>
        simp only [firstFailing, hex', hpt, Bool.false_eq_true, if_false] at h
        exact ⟨c, List.mem_cons_self _ _, Option.some.inj h, hex', hpt⟩

theorem fieldsOf_map_fst (exclude : List String) (cols : List Column)
    (h : ∀ c ∈ cols, exclude.contains c.name = false →
      (resolve_python_type c.type).isSome = true) :
    (fieldsOf exclude cols).map Prod.fst =
      (cols.filter (fun c => !(exclude.contains c.name))).map Column.name := by
  induction cols with
  | nil => simp [fieldsOf]
  | cons c cols ih =>
    have ih' := ih (fun d hd hd2 => h d (List.mem_cons_of_mem _ hd) hd2)
    by_cases hm : c.name ∈ exclude
    · simp [fieldsOf, List.filter_cons, hm, ih']
    · have hex' : exclude.contains c.name = false := by simpa using hm
      have hr := h c (List.mem_cons_self _ _) hex'
      obtain ⟨pt, hpt⟩ := Option.isSome_iff_exists.mp hr
      simp [fieldsOf, List.filter_cons, hm, hpt, ih']

theorem lookup_fieldsOf (exclude : List String) (cols : List Column)
    (c : Column) (pt : PyType) (hnd : (cols.map Column.name).Nodup)
    (hmem : c ∈ cols) (hex : exclude.contains c.name = false)
    (hpt : resolve_python_type c.type = some pt) :
    (fieldsOf exclude cols).lookup c.name = some (columnField c pt) := by
  induction cols with
  | nil => cases hmem
  | cons d cols ih =>
    simp only [List.map_cons, List.nodup_cons] at hnd
    rcases List.mem_cons.mp hmem with rfl | hmem2
    · have hm : c.name ∉ exclude := by simpa using hex
      simp [fieldsOf, hm, hpt, List.lookup]
    · have hne : (c.name == d.name) = false := by
        have : d.name ≠ c.name := by
          intro hcontra
          exact hnd.1 (hcontra ▸ List.mem_map_of_mem Column.name hmem2)
        simp [this.symm]
      by_cases hdex : exclude.contains d.name = true
      · simp only [fieldsOf, hdex, if_true]
        exact ih hnd.2 hmem2
      · have hdex' : exclude.contains d.name = false := by simpa using hdex
        cases hdpt : resolve_python_type d.type with
        | some qt =>
          simp only [fieldsOf, hdex', hdpt, Bool.false_eq_true, if_false]
          rw [List.lookup, hne]
          exact ih hnd.2 hmem2
        | none =>
          simp only [fieldsOf, hdex', hdpt, Bool.false_eq_true, if_false]
          exact ih hnd.2 hmem2

theorem fieldsOf_cons_exclude (X : String) (exclude : List String)
    (cols : List Column) :
    fieldsOf (X :: exclude) cols =
      (fieldsOf exclude cols).filter (fun p => !(p.1 == X)) := by
  induction cols with
  | nil => simp [fieldsOf]
  | cons c cols ih =>
    by_cases hx : c.name = X
    · subst hx
      by_cases hm : c.name ∈ exclude
      · simp [fieldsOf, hm, ih]
      · cases hpt : resolve_python_type c.type with
        | some pt =>
          simp [fieldsOf, hm, hpt, ih, List.filter_cons]
        | none =>
          simp [fieldsOf, hm, hpt, ih]
    · by_cases hm : c.name ∈ exclude
      · simp [fieldsOf, hm, hx, ih]
      · cases hpt : resolve_python_type c.type with
        | some pt =>
          simp [fieldsOf, hm, hx, hpt, ih, List.filter_cons]
        | none =>
          simp [fieldsOf, hm, hx, hpt, ih]

theorem processColumns_cons_exclude_irrelevant (X : String)
    (exclude : List String) (cols : List Column)
    (hX : ∀ c ∈ cols, c.name ≠ X) :
    ∀ acc, processColumns (X :: exclude) cols acc = processColumns exclude cols acc := by
  induction cols with
  | nil => intro acc; rfl
  | cons c cols ih =>
    intro acc
    have hcontains : (X :: exclude).contains c.name = exclude.contains c.name := by
      simp [List.contains_cons, hX c (List.mem_cons_self _ _)]
    have ih' := ih (fun d hd => hX d (List.mem_cons_of_mem _ hd))
    by_cases hex : exclude.contains c.name = true
    · simp only [processColumns, hcontains, hex, if_true]
      exact ih' acc
    · have hex' : exclude.contains c.name = false := by simpa using hex
      cases hpt : resolve_python_type c.type with
      | some pt =>
        simp only [processColumns, hcontains, hex', hpt, Bool.false_eq_true, if_false]
        exact ih' _
      | none =>
        simp only [processColumns, hcontains, hex', hpt, Bool.false_eq_true, if_false]

theorem processColumns_all_excluded (exclude : List String) (cols : List Column)
    (h : ∀ c ∈ cols, exclude.contains c.name = true) :
    ∀ acc, processColumns exclude cols acc = Except.ok acc := by
  induction cols with
  | nil => intro acc; rfl
  | cons c cols ih =>
    intro acc
    simp only [processColumns, h c (List.mem_cons_self _ _), if_true]
    exact ih (fun d hd => h d (List.mem_cons_of_mem _ hd)) acc

theorem requiredNames_filter (X : String) (fields : List (String × FieldSpec)) :
    requiredNames (fields.filter (fun p => !(p.1 == X))) =
      (requiredNames fields).filter (fun n => !(n == X)) := by
  induction fields with
  | nil => simp [requiredNames]
  | cons p fields ih =>
    by_cases hx : p.1 = X
    · by_cases hreq : p.2.default = FieldDefault.required
      · simp [requiredNames, List.filter_cons, hx, hreq] at ih ⊢
        exact ih
      · simp [requiredNames, List.filter_cons, hx, hreq] at ih ⊢
        exact ih
    · by_cases hreq : p.2.default = FieldDefault.required
      · simp [requiredNames, List.filter_cons, hx, hreq] at ih ⊢
        exact ih
      · simp [requiredNames, List.filter_cons, hx, hreq] at ih ⊢
        exact ih

theorem validateFields_ok (fields : List (String × FieldSpec))
    (attrs : List (String × PyValue))
    (h : ∀ p ∈ fields, ∃ v, attrs.lookup p.1 = some v ∧
      fieldAccepts p.2.type v = true) :
    ∃ inst, validateFields fields attrs = some inst ∧
      ∀ p ∈ fields, inst.lookup p.1 = attrs.lookup p.1 := by
  induction fields with
  | nil => exact ⟨[], rfl, fun p hp => absurd hp (List.not_mem_nil p)⟩
  | cons q fields ih =>
    obtain ⟨n, fs⟩ := q
    obtain ⟨v, hv, hacc⟩ := h (n, fs) (List.mem_cons_self _ _)
    obtain ⟨inst, hinst, hlook⟩ :=
      ih (fun p hp => h p (List.mem_cons_of_mem _ hp))
    refine ⟨(n, v) :: inst, ?_, ?_⟩
    · simp [validateFields, hv, hacc, hinst]
    · intro p hp
      rcases List.mem_cons.mp hp with rfl | hp2
      · simp [List.lookup, hv]
      · by_cases hpn : p.1 = n
        · have hb : (p.1 == n) = true := by simp [hpn]
          simp only [List.lookup, hb]
          rw [hpn]
          exact hv.symm
        · have hb : (p.1 == n) = false := by simp [hpn]
          simp only [List.lookup, hb]
          exact hlook p hp2

/-! ### Lemmas at the level of the whole converter -/

theorem derive_ok_elim {Cfg : Type} (m : DBModel) (cfg : Cfg)
    (excl : List String) (t : Table) (s : SchemaType Cfg)
    (hlook : lookupTable m = some t)
    (hok : sqlalchemy_to_pydantic m cfg excl = Except.ok s) :
    processColumns excl t.columns [] = Except.ok s.fields ∧
      s.name = m.py_name ∧ s.config = cfg := by
  unfold sqlalchemy_to_pydantic at hok
  split at hok
  · exact Except.noConfusion hok
  · rename_i t2 heq
    rw [hlook] at heq
    have ht : t = t2 := Option.some.inj heq
    subst ht
    split at hok
    · exact Except.noConfusion hok
    · rename_i fs heq2
      have hs := Except.ok.inj hok
      refine ⟨?_, ?_, ?_⟩
      · rw [← hs]; exact heq2
      · rw [← hs]
      · rw [← hs]

theorem derive_ok_firstFailing_none {Cfg : Type} (m : DBModel) (cfg : Cfg)
    (excl : List String) (t : Table) (s : SchemaType Cfg)
    (hlook : lookupTable m = some t)
    (hok : sqlalchemy_to_pydantic m cfg excl = Except.ok s) :
    firstFailing excl t.columns = none := by
  obtain ⟨hpc, -, -⟩ := derive_ok_elim m cfg excl t s hlook hok
  cases hf : firstFailing excl t.columns with
  | none => rfl
  | some n =>
    rw [processColumns_err excl t.columns [] n hf] at hpc
    cases hpc

theorem derive_fields_eq {Cfg : Type} (m : DBModel) (cfg : Cfg)
    (excl : List String) (t : Table) (s : SchemaType Cfg)
    (hlook : lookupTable m = some t)
    (hnd : (t.columns.map Column.name).Nodup)
    (hok : sqlalchemy_to_pydantic m cfg excl = Except.ok s) :
    s.fields = fieldsOf excl t.columns := by
  obtain ⟨hpc, -, -⟩ := derive_ok_elim m cfg excl t s hlook hok
  have hres := of_firstFailing_none excl t.columns
    (derive_ok_firstFailing_none m cfg excl t s hlook hok)
  have hsh := processColumns_ok_shape excl t.columns [] hnd
    (fun c _ => rfl) hres
  rw [hpc] at hsh
  simpa using Except.ok.inj hsh

/-! ### The claims -/

/-- Claim C1: for every non-excluded column of the source model's table,
the converter produces the field specification dictated by nullability: a
non-nullable column yields the resolved type, required with no default; a
nullable column yields the optional-wrapped resolved type with default
`None`. -/
theorem claim_C1 {Cfg : Type} (m : DBModel) (cfg : Cfg) (excl : List String)
    (t : Table) (s : SchemaType Cfg) (c : Column)
    (hlook : lookupTable m = some t)
    (hnd : (t.columns.map Column.name).Nodup)
    (hok : sqlalchemy_to_pydantic m cfg excl = Except.ok s)
    (hmem : c ∈ t.columns) (hexc : excl.contains c.name = false) :
    ∃ pt, resolve_python_type c.type = some pt ∧
      (c.nullable = false →
        s.fields.lookup c.name =
          some { type := FieldType.plain pt, default := FieldDefault.required }) ∧
      (c.nullable = true →
        s.fields.lookup c.name =
          some { type := FieldType.optional pt, default := FieldDefault.noneDefault }) := by
  have hres := of_firstFailing_none excl t.columns
    (derive_ok_firstFailing_none m cfg excl t s hlook hok)
  obtain ⟨pt, hpt⟩ := Option.isSome_iff_exists.mp (hres c hmem hexc)
  have hfe := derive_fields_eq m cfg excl t s hlook hnd hok
  have hlku := lookup_fieldsOf excl t.columns c pt hnd hmem hexc hpt
  refine ⟨pt, hpt, ?_, ?_⟩
  · intro hnull
    rw [hfe, hlku]
    simp [columnField, hnull]
  · intro hnull
    rw [hfe, hlku]
    simp [columnField, hnull]

/-- Claim C1 witness: the `id` column of the `users` table is non-nullable
and becomes a required `int` field of the derived `User` schema. -/
theorem claim_C1_witness :
    ∃ pt, resolve_python_type intColType = some pt ∧
      (false = false →
        userSchema.fields.lookup "id" =
          some { type := FieldType.plain pt, default := FieldDefault.required }) ∧
      (false = true →
        userSchema.fields.lookup "id" =
          some { type := FieldType.optional pt, default := FieldDefault.noneDefault }) :=
  claim_C1 userModel () [] usersTable userSchema
    { name := "id", type := intColType, nullable := false }
    (by decide) (by decide) (by decide) (by decide) (by decide)

/-- Claim C2 counterexample: the column `x` of `implOnlyModel` exposes a
native type on the direct path (`python_type` is `int` on the column type
itself), yet derivation fails with a type-resolution error naming `x`,
because the column type also has an `impl` without a `python_type` and the
code's `elif` never falls back to the direct accessor.  So failure is not
equivalent to both resolution paths yielding nothing. -/
theorem claim_C2_counterexample :
    sqlalchemy_to_pydantic implOnlyModel () [] =
      Except.error (DeriveError.typeResolution "x") ∧
    implOnlyColumn.type.python_type = some PyType.int := by
  decide

/-- Claim C2 (amended): derivation fails with a type-resolution error if
and only if some non-excluded column's type yields no native type along
the path the code selects for it — the one-level-unwrapped path when the
column type is a wrapper (has `impl`), the direct path otherwise; the
error names such a column, and no schema is returned in that case. -/
theorem claim_C2_amended {Cfg : Type} (m : DBModel) (cfg : Cfg)
    (excl : List String) (t : Table) (hlook : lookupTable m = some t) :
    ((∃ n, sqlalchemy_to_pydantic m cfg excl =
        (Except.error (DeriveError.typeResolution n) :
          Except DeriveError (SchemaType Cfg))) ↔
      ∃ c ∈ t.columns, excl.contains c.name = false ∧
        resolve_python_type c.type = none) ∧
    (∀ n, sqlalchemy_to_pydantic m cfg excl =
        (Except.error (DeriveError.typeResolution n) :
          Except DeriveError (SchemaType Cfg)) →
      ∃ c ∈ t.columns, c.name = n ∧ excl.contains c.name = false ∧
        resolve_python_type c.type = none) := by
  have hderive : ∀ n : String,
      (sqlalchemy_to_pydantic m cfg excl =
        (Except.error (DeriveError.typeResolution n) :
          Except DeriveError (SchemaType Cfg))) ↔
      processColumns excl t.columns [] =
        Except.error (DeriveError.typeResolution n) := by
    intro n
    unfold sqlalchemy_to_pydantic
    rw [hlook]
    cases hpc : processColumns excl t.columns [] with
    | error e => simp [hpc]
    | ok fs => simp [hpc]
  constructor
  · constructor
    · rintro ⟨n, hn⟩
      have hpc := (hderive n).mp hn
      have hff := processColumns_error_name excl t.columns [] n hpc
      obtain ⟨c, hcmem, -, hcex, hcres⟩ :=
        firstFailing_some_spec excl t.columns n hff
      exact ⟨c, hcmem, hcex, hcres⟩
    · rintro ⟨c, hcmem, hcex, hcres⟩
      cases hf : firstFailing excl t.columns with
      | none =>
        have := of_firstFailing_none excl t.columns hf c hcmem hcex
        rw [hcres] at this
        cases this
      | some n =>
        exact ⟨n, (hderive n).mpr (processColumns_err excl t.columns [] n hf)⟩
  · intro n hn
    have hpc := (hderive n).mp hn
    have hff := processColumns_error_name excl t.columns [] n hpc
    exact firstFailing_some_spec excl t.columns n hff

/-- Claim C2 witness: the amended statement instantiated at
`implOnlyModel`, whose single column fails resolution along the selected
(unwrapped) path. -/
theorem claim_C2_witness :
    ((∃ n, sqlalchemy_to_pydantic implOnlyModel () [] =
        (Except.error (DeriveError.typeResolution n) :
          Except DeriveError (SchemaType Unit))) ↔
      ∃ c ∈ implOnlyTable.columns, ([] : List String).contains c.name = false ∧
        resolve_python_type c.type = none) ∧
    (∀ n, sqlalchemy_to_pydantic implOnlyModel () [] =
        (Except.error (DeriveError.typeResolution n) :
          Except DeriveError (SchemaType Unit)) →
      ∃ c ∈ implOnlyTable.columns, c.name = n ∧
        ([] : List String).contains c.name = false ∧
        resolve_python_type c.type = none) :=
  claim_C2_amended implOnlyModel () [] implOnlyTable (by decide)

/-- Claim C3: on a successful derivation, the field names are exactly the
names of the non-excluded columns, in the table's column order, so a table
with N non-excluded columns yields exactly N fields and no field is
synthesized beyond the columns. -/
theorem claim_C3 {Cfg : Type} (m : DBModel) (cfg : Cfg) (excl : List String)
    (t : Table) (s : SchemaType Cfg)
    (hlook : lookupTable m = some t)
    (hnd : (t.columns.map Column.name).Nodup)
    (hok : sqlalchemy_to_pydantic m cfg excl = Except.ok s) :
    s.fields.map Prod.fst =
      (t.columns.filter (fun c => !(excl.contains c.name))).map Column.name ∧
    s.fields.length =
      (t.columns.filter (fun c => !(excl.contains c.name))).length := by
  have hres := of_firstFailing_none excl t.columns
    (derive_ok_firstFailing_none m cfg excl t s hlook hok)
  have hfe := derive_fields_eq m cfg excl t s hlook hnd hok
  have hmap : s.fields.map Prod.fst =
      (t.columns.filter (fun c => !(excl.contains c.name))).map Column.name := by
    rw [hfe]
    exact fieldsOf_map_fst excl t.columns hres
  refine ⟨hmap, ?_⟩
  have hlen := congrArg List.length hmap
  simpa using hlen

/-- Claim C3 witness: the `User` derivation with empty exclusion has the
six column names as its field names, in column order. -/
theorem claim_C3_witness :
    userSchema.fields.map Prod.fst =
      (usersTable.columns.filter
        (fun c => !(([] : List String).contains c.name))).map Column.name ∧
    userSchema.fields.length =
      (usersTable.columns.filter
        (fun c => !(([] : List String).contains c.name))).length :=
  claim_C3 userModel () [] usersTable userSchema (by decide) (by decide) (by decide)

/-- Claim C4: adding a name `X` to the exclusion set changes a successful
derivation only by dropping field `X`: the result still succeeds, keeps the
schema name and config, its field mapping is the previous one with entry
`X` filtered out (all other specifications unchanged, in order), and its
required-name set is the previous one minus `X`. -/
theorem claim_C4 {Cfg : Type} (m : DBModel) (cfg : Cfg) (excl : List String)
    (X : String) (t : Table) (s : SchemaType Cfg)
    (hlook : lookupTable m = some t)
    (hnd : (t.columns.map Column.name).Nodup)
    (hok : sqlalchemy_to_pydantic m cfg excl = Except.ok s) :
    ∃ s2, sqlalchemy_to_pydantic m cfg (X :: excl) = Except.ok s2 ∧
      s2.name = s.name ∧ s2.config = s.config ∧
      s2.fields = s.fields.filter (fun p => !(p.1 == X)) ∧
      requiredNames s2.fields =
        (requiredNames s.fields).filter (fun n => !(n == X)) := by
  obtain ⟨-, hname, hcfg⟩ := derive_ok_elim m cfg excl t s hlook hok
  have hres := of_firstFailing_none excl t.columns
    (derive_ok_firstFailing_none m cfg excl t s hlook hok)
  have hres2 : ∀ c ∈ t.columns, (X :: excl).contains c.name = false →
      (resolve_python_type c.type).isSome = true := by
    intro c hc h2
    refine hres c hc ?_
    simp only [List.contains_cons, Bool.or_eq_false_iff] at h2
    exact h2.2
  have hsh := processColumns_ok_shape (X :: excl) t.columns [] hnd
    (fun c _ => rfl) hres2
  have hfe := derive_fields_eq m cfg excl t s hlook hnd hok
  refine ⟨{ name := m.py_name, config := cfg,
            fields := fieldsOf (X :: excl) t.columns }, ?_, ?_, ?_, ?_, ?_⟩
  · simp [sqlalchemy_to_pydantic, hlook, hsh]
  · rw [hname]
  · rw [hcfg]
  · rw [fieldsOf_cons_exclude X excl t.columns, hfe]
  · rw [fieldsOf_cons_exclude X excl t.columns, hfe, requiredNames_filter]

/-- Claim C4 witness: excluding `nickname` from the `User` derivation
drops exactly the `nickname` field. -/
theorem claim_C4_witness :
    ∃ s2, sqlalchemy_to_pydantic userModel () ("nickname" :: []) = Except.ok s2 ∧
      s2.name = userSchema.name ∧ s2.config = userSchema.config ∧
      s2.fields = userSchema.fields.filter (fun p => !(p.1 == "nickname")) ∧
      requiredNames s2.fields =
        (requiredNames userSchema.fields).filter (fun n => !(n == "nickname")) :=
  claim_C4 userModel () [] "nickname" usersTable userSchema
    (by decide) (by decide) (by decide)

/-- Claim C5: the converter is idempotent in its inputs: calling it a
second time, in the state left by a first call, with the same model,
config and exclusion argument, returns exactly the same outcome — in
particular the same field names, required/optional split and resolved
types. -/
theorem claim_C5 {Cfg : Type} (st : CallState Cfg) (cfg : Cfg)
    (excl : Option (List String)) :
    (sqlalchemy_to_pydantic_call
        (sqlalchemy_to_pydantic_call st cfg excl).1 cfg excl).2 =
      (sqlalchemy_to_pydantic_call st cfg excl).2 := by
  unfold sqlalchemy_to_pydantic_call
  cases h : sqlalchemy_to_pydantic st.db_model cfg (excl.getD st.default_exclude) with
  | ok s => simp [h]
  | error e => simp [h]

/-- Claim C6: the schema type returned on success is named after the source
model's own `__name__`, and the config argument is forwarded verbatim into
the constructed schema without influencing anything else: deriving the same
model with any other config (even of a different type) yields the same name
and the very same field specifications. -/
theorem claim_C6 {Cfg Cfg2 : Type} (m : DBModel) (cfg : Cfg) (cfg2 : Cfg2)
    (excl : List String) (s : SchemaType Cfg) (s2 : SchemaType Cfg2)
    (hok : sqlalchemy_to_pydantic m cfg excl = Except.ok s)
    (hok2 : sqlalchemy_to_pydantic m cfg2 excl = Except.ok s2) :
    s.name = m.py_name ∧ s.config = cfg ∧ s2.name = s.name ∧
      s2.fields = s.fields := by
  have hlook : ∃ t, lookupTable m = some t := by
    unfold sqlalchemy_to_pydantic at hok
    split at hok
    · exact Except.noConfusion hok
    · rename_i t heq
      exact ⟨t, heq⟩
  obtain ⟨t, hlook⟩ := hlook
  obtain ⟨hpc1, hn1, hc1⟩ := derive_ok_elim m cfg excl t s hlook hok
  obtain ⟨hpc2, hn2, hc2⟩ := derive_ok_elim m cfg2 excl t s2 hlook hok2
  have hf : s2.fields = s.fields := by
    rw [hpc1] at hpc2
    exact (Except.ok.inj hpc2).symm
  exact ⟨hn1, hc1, by rw [hn1, hn2], hf⟩

/-- Claim C6 witness: deriving `User` with a `Unit` config and with a
`Bool` config gives the model's name, the forwarded config, and identical
fields. -/
theorem claim_C6_witness :
    userSchema.name = userModel.py_name ∧ userSchema.config = () ∧
      userSchemaB.name = userSchema.name ∧
      userSchemaB.fields = userSchema.fields :=
  claim_C6 userModel () true [] userSchema userSchemaB (by decide) (by decide)

/-- Claim C7: a call of the converter leaves the program state intact
apart from recording the freshly created type: the model object (hence the
table object inside it) and the shared default exclusion collection are
unchanged, and a later call using the default exclusion argument observes
no state left behind by an earlier call — it returns the same outcome. -/
theorem claim_C7 {Cfg : Type} (st : CallState Cfg) (cfg : Cfg)
    (excl : Option (List String)) :
    (sqlalchemy_to_pydantic_call st cfg excl).1.db_model = st.db_model ∧
    (sqlalchemy_to_pydantic_call st cfg excl).1.default_exclude =
      st.default_exclude ∧
    (sqlalchemy_to_pydantic_call
        (sqlalchemy_to_pydantic_call st cfg
          (none : Option (List String))).1 cfg
        (none : Option (List String))).2 =
      (sqlalchemy_to_pydantic_call st cfg (none : Option (List String))).2 := by
  refine ⟨?_, ?_, ?_⟩
  · unfold sqlalchemy_to_pydantic_call
    cases h : sqlalchemy_to_pydantic st.db_model cfg (excl.getD st.default_exclude) with
    | ok s => simp [h]
    | error e => simp [h]
  · unfold sqlalchemy_to_pydantic_call
    cases h : sqlalchemy_to_pydantic st.db_model cfg (excl.getD st.default_exclude) with
    | ok s => simp [h]
    | error e => simp [h]
  · unfold sqlalchemy_to_pydantic_call
    cases h : sqlalchemy_to_pydantic st.db_model cfg st.default_exclude with
    | ok s => simp [h]
    | error e => simp [h]

/-- Claim C8: an object whose attributes match the fields of a derived
schema validates into an instance, and serializing that instance back
reproduces the original attribute value of every field. -/
theorem claim_C8 {Cfg : Type} (m : DBModel) (cfg : Cfg) (excl : List String)
    (s : SchemaType Cfg) (attrs : List (String × PyValue))
    (hok : sqlalchemy_to_pydantic m cfg excl = Except.ok s)
    (hmatch : ∀ p ∈ s.fields, ∃ v, attrs.lookup p.1 = some v ∧
      fieldAccepts p.2.type v = true) :
    ∃ inst, model_validate s attrs = some inst ∧
      ∀ p ∈ s.fields, (model_dump inst).lookup p.1 = attrs.lookup p.1 := by
  obtain ⟨inst, h1, h2⟩ := validateFields_ok s.fields attrs hmatch
  exact ⟨inst, h1, h2⟩

/-- Claim C8 witness: the `ed` row validates against the derived `User`
schema and dumps back to its own attribute values. -/
theorem claim_C8_witness :
    ∃ inst, model_validate userSchema edAttrs = some inst ∧
      ∀ p ∈ userSchema.fields,
        (model_dump inst).lookup p.1 = edAttrs.lookup p.1 :=
  claim_C8 userModel () [] userSchema edAttrs (by decide)
    (by
      intro p hp
      simp only [userSchema, userFields, List.mem_cons,
        List.not_mem_nil, or_false] at hp
      rcases hp with rfl | rfl | rfl | rfl | rfl | rfl
      · exact ⟨PyValue.vint 1, by decide, by decide⟩
      · exact ⟨PyValue.vstr "ed", by decide, by decide⟩
      · exact ⟨PyValue.vstr "Ed Jones", by decide, by decide⟩
      · exact ⟨PyValue.vstr "edsnickname", by decide, by decide⟩
      · exact ⟨PyValue.vdatetime 100, by decide, by decide⟩
      · exact ⟨PyValue.vdatetime 200, by decide, by decide⟩)

/-- Claim C9: exclusion names matching no column are silently ignored —
derivation gives the very same result with or without them; and when every
column name is excluded, derivation still succeeds and returns a schema
with zero fields. -/
theorem claim_C9 {Cfg : Type} (m : DBModel) (cfg : Cfg) (excl : List String)
    (X : String) (t : Table) (hlook : lookupTable m = some t) :
    ((∀ c ∈ t.columns, c.name ≠ X) →
      sqlalchemy_to_pydantic m cfg (X :: excl) =
        (sqlalchemy_to_pydantic m cfg excl :
          Except DeriveError (SchemaType Cfg))) ∧
    ((∀ c ∈ t.columns, excl.contains c.name = true) →
      sqlalchemy_to_pydantic m cfg excl =
        Except.ok { name := m.py_name, config := cfg, fields := [] }) := by
  constructor
  · intro hX
    have hpc := processColumns_cons_exclude_irrelevant X excl t.columns hX []
    simp [sqlalchemy_to_pydantic, hlook, hpc]
  · intro hall
    have hpc := processColumns_all_excluded excl t.columns hall []
    simp [sqlalchemy_to_pydantic, hlook, hpc]

/-- Claim C9 witness: excluding the unknown name `email` changes nothing
for `User`, and excluding all six column names yields an empty-field
schema. -/
theorem claim_C9_witness :
    ((∀ c ∈ usersTable.columns, c.name ≠ "email") →
      sqlalchemy_to_pydantic userModel ()
          ("email" :: ["id", "name", "fullname", "nickname", "created", "updated"]) =
        sqlalchemy_to_pydantic userModel ()
          ["id", "name", "fullname", "nickname", "created", "updated"]) ∧
    ((∀ c ∈ usersTable.columns,
        (["id", "name", "fullname", "nickname", "created",
          "updated"] : List String).contains c.name = true) →
      sqlalchemy_to_pydantic userModel ()
          ["id", "name", "fullname", "nickname", "created", "updated"] =
        Except.ok { name := userModel.py_name, config := (), fields := [] }) :=
  claim_C9 userModel ()
    ["id", "name", "fullname", "nickname", "created", "updated"]
    "email" usersTable (by decide)

/-- Claim C10: whenever the table resolves and every non-excluded column's
type yields a native type along the path the code selects, the assert is
unreachable: derivation is total and returns a schema. -/
theorem claim_C10 {Cfg : Type} (m : DBModel) (cfg : Cfg) (excl : List String)
    (t : Table) (hlook : lookupTable m = some t)
    (hres : ∀ c ∈ t.columns, excl.contains c.name = false →
      (resolve_python_type c.type).isSome = true) :
    ∃ s, sqlalchemy_to_pydantic m cfg excl = (Except.ok s :
      Except DeriveError (SchemaType Cfg)) := by
  have hff := firstFailing_none_of excl t.columns hres
  obtain ⟨fs, hfs⟩ := processColumns_ok_of_none excl t.columns hff []
  refine ⟨{ name := m.py_name, config := cfg, fields := fs }, ?_⟩
  simp [sqlalchemy_to_pydantic, hlook, hfs]

/-- Claim C10 witness: the `users` table resolves every column, so
derivation succeeds. -/
theorem claim_C10_witness :
    ∃ s, sqlalchemy_to_pydantic userModel () [] = (Except.ok s :
      Except DeriveError (SchemaType Unit)) :=
  claim_C10 userModel () [] usersTable (by decide) (by decide)
